import Mathlib

/-!
Shallow embedding of the `UrlSlugAgent` Dagger module (src/src/index.ts,
second revision of the file) and proofs about its specification.

Strings are modelled as `List Char`.  JavaScript regular-expression
operations are modelled character by character:
`/[^\w\s-]/g`-removal becomes a filter, `/[\s_-]+/g`-collapse becomes a
character map followed by merging of adjacent hyphens, `/^-+|-+$/g`
becomes `dropWhile` from both ends, and `substring(0, 50)` becomes
`take 50`.  The per-call random choice of a descriptor
(`descriptors[Math.floor(Math.random() * descriptors.length)]`) is
modelled by passing the chosen descriptor as an explicit argument.
-/

abbrev Str := List Char

/-- Whitespace class of JavaScript regular expressions (`\s`) and of
`String.prototype.trim`, by code point. -/
def jsIsWs (c : Char) : Bool :=
  c.toNat == 9 || c.toNat == 10 || c.toNat == 11 || c.toNat == 12 || c.toNat == 13 ||
  c.toNat == 32 || c.toNat == 160 || c.toNat == 5760 ||
  (decide (8192 ≤ c.toNat) && decide (c.toNat ≤ 8202)) ||
  c.toNat == 8232 || c.toNat == 8233 || c.toNat == 8239 || c.toNat == 8287 ||
  c.toNat == 12288 || c.toNat == 65279

/-- ASCII upper-case letter (`A`–`Z`). -/
def isUpperB (c : Char) : Bool := decide (65 ≤ c.toNat) && decide (c.toNat ≤ 90)

/-- ASCII lower-case letter (`a`–`z`). -/
def isLowerB (c : Char) : Bool := decide (97 ≤ c.toNat) && decide (c.toNat ≤ 122)

/-- ASCII digit (`0`–`9`). -/
def isDigitB (c : Char) : Bool := decide (48 ≤ c.toNat) && decide (c.toNat ≤ 57)

/-- Underscore character. -/
def isUnderscore (c : Char) : Bool := c.toNat == 95

/-- Hyphen-minus character. -/
def isHyphen (c : Char) : Bool := c.toNat == 45

/-- Character class `[\w\s-]`, i.e. the characters KEPT by
`.replace(/[^\w\s-]/g, '')` (index.ts line 605). -/
def isWordChar (c : Char) : Bool :=
  isUpperB c || isLowerB c || isDigitB c || isUnderscore c || jsIsWs c || isHyphen c

/-- Character class `[\s_-]`, the class collapsed to a single hyphen by
`.replace(/[\s_-]+/g, '-')` (index.ts line 606). -/
def isCollapsible (c : Char) : Bool := jsIsWs c || isUnderscore c || isHyphen c

/-- Lower-case ASCII letter or digit, the class `[a-z0-9]`. -/
def isLowerAlnum (c : Char) : Bool := isLowerB c || isDigitB c

/-- Character admissible in a slug per the spec regex: `[a-z0-9-]`. -/
def isSlugChar (c : Char) : Bool := isLowerAlnum c || isHyphen c

/-- ASCII case lowering of a single character, the character-wise model of
`String.prototype.toLowerCase` (full Unicode lowering differs only on
characters that are removed later by the `[^\w\s-]` filter). -/
def lowerChar (c : Char) : Char :=
  if isUpperB c then Char.ofNat (c.toNat + 32) else c

/-- Model of `input.toLowerCase()`. -/
def jsToLower (s : Str) : Str := s.map lowerChar

/-- Model of `String.prototype.trim`: drop whitespace from both ends. -/
def jsTrim (s : Str) : Str :=
  ((s.dropWhile jsIsWs).reverse.dropWhile jsIsWs).reverse

/-- Worker for splitting on whitespace: accumulates the current word
(reversed) and emits a component at each whitespace character. -/
def splitWsGo : Str → Str → List Str
  | [], acc => [acc.reverse]
  | c :: t, acc =>
    if jsIsWs c then acc.reverse :: splitWsGo t [] else splitWsGo t (c :: acc)

/-- Model of `.split(/\s+/)` as used in index.ts line 588, where its
argument is always already trimmed.  On the empty string JavaScript
returns `[""]`; on a trimmed non-empty string it returns the maximal
runs of non-whitespace characters, which is `splitWsGo` with the empty
components (arising from interior whitespace runs) removed. -/
def jsSplitWs (s : Str) : List Str :=
  if s.isEmpty then [[]] else (splitWsGo s []).filter (fun w => !w.isEmpty)

/-- Modelled from the spec wording of claim C1: split the (lowercased,
trimmed) input on runs of whitespace "into a sequence of words", with no
empty-string artefact for the empty input. -/
def specWords (s : Str) : List Str :=
  (splitWsGo s []).filter (fun w => !w.isEmpty)

/-- Model of `Array.prototype.join('-')`. -/
def joinHyphen : List Str → Str
  | [] => []
  | [w] => w
  | w :: ws => w ++ '-' :: joinHyphen ws

/-- Model of `.replace(/[^\w\s-]/g, '')` (index.ts line 605): keep only
characters of the class `[\w\s-]`. -/
def filterChars (s : Str) : Str := s.filter isWordChar

/-- First half of `.replace(/[\s_-]+/g, '-')`: send every collapsible
character to a hyphen. -/
def hyphenate (s : Str) : Str :=
  s.map (fun c => if isCollapsible c then '-' else c)

/-- Second half of `.replace(/[\s_-]+/g, '-')` (and the whole of the
hyphen-run replace in `generateLLMSlug`, index.ts line 257): merge each
run of adjacent hyphens into a single hyphen. -/
def squashHyphens : Str → Str
  | [] => []
  | [c] => [c]
  | a :: b :: r =>
    if isHyphen a && isHyphen b then squashHyphens (b :: r)
    else a :: squashHyphens (b :: r)

/-- Model of `.replace(/[\s_-]+/g, '-')` (index.ts line 606): each
maximal run of whitespace, underscore and hyphen characters becomes one
hyphen. -/
def collapseRuns (s : Str) : Str := squashHyphens (hyphenate s)

/-- Model of `.replace(/^-+|-+$/g, '')` (index.ts line 607): strip the
leading and the trailing run of hyphens. -/
def stripHyphens (s : Str) : Str :=
  ((s.dropWhile isHyphen).reverse.dropWhile isHyphen).reverse

/-- The fixed descriptor set of index.ts line 591. -/
def descriptors : List Str :=
  [("deep-dive".toList), ("explained".toList), ("guide".toList),
   ("insights".toList), ("stories".toList), ("journey".toList),
   ("exploration".toList), ("breakdown".toList)]

/-- Word list of `createSlug` (index.ts line 588):
`input.toLowerCase().trim().split(/\s+/)`. -/
def slugWords (input : Str) : List Str :=
  jsSplitWs (jsTrim (jsToLower input))

/-- The string `complexSlug` right before the cleaning chain of
`createSlug` (index.ts lines 595-601): the first three words of length
greater than two joined with hyphens, then a hyphen and the chosen
descriptor. -/
def rawSlug (input d : Str) : Str :=
  joinHyphen (((slugWords input).filter (fun w => decide (2 < w.length))).take 3)
    ++ '-' :: d

/-- The value of `createSlug` before the final `substring(0, 50)`:
filter, collapse, strip (index.ts lines 604-607). -/
def cleanedSlug (input d : Str) : Str :=
  stripHyphens (collapseRuns (filterChars (rawSlug input d)))

/-- Model of `createSlug` (index.ts lines 586-609), with the randomly
chosen descriptor `d` passed explicitly. -/
def createSlug (input d : Str) : Str :=
  (cleanedSlug input d).take 50

/-- Modelled from the spec's words in claim C1: the nine-step pipeline
(lowercase and trim; split into words; drop words of length at most two;
take at most three words joined with hyphens; append hyphen and
descriptor; remove characters outside the class; collapse runs; strip
edge hyphens; truncate to fifty characters), using `specWords` for the
splitting step. -/
def deriveSlugSpec (input d : Str) : Str :=
  (stripHyphens (collapseRuns (filterChars
    (joinHyphen (((specWords (jsTrim (jsToLower input))).filter
        (fun w => decide (2 < w.length))).take 3) ++ '-' :: d)))).take 50

example : createSlug ("Hello big world today".toList) ("guide".toList)
    = ("hello-big-world-guide".toList) := by decide

example : createSlug ([]) ("deep-dive".toList) = ("deep-dive".toList) := by decide

example : createSlug ("a b".toList) ("journey".toList) = ("journey".toList) := by decide

example : createSlug (List.replicate 49 'a') ("guide".toList)
    = (List.replicate 49 'a') ++ ['-'] := by decide

example : deriveSlugSpec ("  Fancy C++ & Rust!  ".toList) ("insights".toList)
    = createSlug ("  Fancy C++ & Rust!  ".toList) ("insights".toList) := by decide

/-- Head-is-a-hyphen test, used to state "no leading hyphen". -/
def headHyphen : Str → Bool
  | [] => false
  | c :: _ => isHyphen c

lemma filtered_words_eq (t : Str) :
    (jsSplitWs t).filter (fun w => decide (2 < w.length))
      = (specWords t).filter (fun w => decide (2 < w.length)) := by
  cases t with
  | nil => decide
  | cons c r => simp [jsSplitWs, specWords]

/-- C1: for every input string and every descriptor in the fixed
eight-element set, `createSlug` computes exactly the spec's pipeline:
lowercase and trim, split on whitespace runs, drop words of length at
most two, join the first three remaining words with hyphens, append a
hyphen and the descriptor, remove characters outside the word class,
collapse whitespace/underscore/hyphen runs, strip edge hyphens, and
truncate to fifty characters. -/
theorem createSlug_refines_spec (s d : Str) (hd : d ∈ descriptors) :
    createSlug s d = deriveSlugSpec s d := by
  unfold createSlug cleanedSlug rawSlug slugWords deriveSlugSpec
  rw [filtered_words_eq]

theorem createSlug_refines_spec_witness :
    ("guide".toList) ∈ descriptors ∧
      createSlug ("Hello big world".toList) ("guide".toList)
        = deriveSlugSpec ("Hello big world".toList) ("guide".toList) :=
  ⟨by decide,
   createSlug_refines_spec ("Hello big world".toList) ("guide".toList) (by decide)⟩

/-- The fixed default base URL of index.ts lines 19, 78, 103 and 182. -/
def defaultBaseUrl : Str := "https://rickrollworker.lizziepika.workers.dev".toList

/-- Model of the one-shot trailing-slash regex replace on the base URL
(index.ts lines 21, 80, 106 and 186). -/
def stripOneTrailingSlash (b : Str) : Str :=
  if b.getLast? = some '/' then b.dropLast else b

/-- Model of the URL composition inlined in `generateUrl` (lines 78-80)
and `generatePodcast` (lines 182-186): substitute the default base when
the argument is absent or empty (JavaScript falsiness of the empty
string), strip one trailing slash, and append a slash and the slug. -/
def composeUrl (baseUrl : Option Str) (slug : Str) : Str :=
  let base := match baseUrl with
    | none => defaultBaseUrl
    | some b => if b.isEmpty then defaultBaseUrl else b
  stripOneTrailingSlash base ++ '/' :: slug

/-- C3: URL composition strips exactly one trailing slash from the base
and concatenates base, slash and slug, so a base with and without the
trailing slash give the same URL, and an absent base is replaced by the
fixed default. -/
theorem composeUrl_slash_idempotent_and_default :
    (∀ slug : Str, composeUrl (some ("https://x.dev/".toList)) slug
        = composeUrl (some ("https://x.dev".toList)) slug)
    ∧ (∀ slug : Str, composeUrl (some ("https://x.dev".toList)) slug
        = ("https://x.dev/".toList) ++ slug)
    ∧ (∀ b slug : Str, composeUrl (some (b ++ ['/'])) slug = b ++ '/' :: slug)
    ∧ (∀ slug : Str, composeUrl none slug = defaultBaseUrl ++ '/' :: slug) := by
  refine ⟨fun slug => rfl, fun slug => rfl, fun b slug => ?_, fun slug => rfl⟩
  have h1 : (b ++ ['/']).isEmpty = false := by simp
  have h2 : (b ++ ['/']).getLast? = some '/' := by simp
  have h3 : (b ++ ['/']).dropLast = b := by simp
  simp [composeUrl, stripOneTrailingSlash, h1, h2, h3]

lemma isUpperB_of_ws (c : Char) (h : jsIsWs c = true) : isUpperB c = false := by
  simp only [jsIsWs, Bool.or_eq_true, Bool.and_eq_true, beq_iff_eq,
    decide_eq_true_eq] at h
  simp only [isUpperB, Bool.and_eq_false_iff, decide_eq_false_iff_not]
  omega

lemma lowerChar_of_ws (c : Char) (h : jsIsWs c = true) : lowerChar c = c := by
  unfold lowerChar
  rw [isUpperB_of_ws c h]
  simp

lemma jsToLower_of_all_ws (s : Str) (h : s.all jsIsWs = true) :
    jsToLower s = s := by
  induction s with
  | nil => rfl
  | cons c t ih =>
    rw [List.all_cons, Bool.and_eq_true] at h
    show lowerChar c :: jsToLower t = c :: t
    rw [lowerChar_of_ws c h.1, ih h.2]

lemma dropWhile_of_all {p : Char → Bool} (s : Str) (h : s.all p = true) :
    s.dropWhile p = [] := by
  induction s with
  | nil => rfl
  | cons c t ih =>
    rw [List.all_cons, Bool.and_eq_true] at h
    rw [List.dropWhile_cons, if_pos h.1]
    exact ih h.2

lemma jsTrim_of_all_ws (s : Str) (h : s.all jsIsWs = true) : jsTrim s = [] := by
  unfold jsTrim
  rw [dropWhile_of_all s h]
  rfl

lemma createSlug_of_all_ws (s d : Str) (h : s.all jsIsWs = true) :
    createSlug s d = createSlug [] d := by
  have ht : jsTrim (jsToLower s) = [] := by
    rw [jsToLower_of_all_ws s h]
    exact jsTrim_of_all_ws s h
  unfold createSlug cleanedSlug rawSlug slugWords
  rw [ht]
  rfl

lemma descriptor_base (d : Str) (hd : d ∈ descriptors) :
    createSlug [] d = d ∧ createSlug ("a b".toList) d = d
      ∧ headHyphen d = false := by
  have h := List.all_eq_true.mp (show descriptors.all (fun w =>
      (createSlug [] w == w) && (createSlug ("a b".toList) w == w)
        && !headHyphen w) = true by decide) d hd
  simp only [Bool.and_eq_true, beq_iff_eq, Bool.not_eq_true'] at h
  exact ⟨h.1.1, h.1.2, h.2⟩

lemma jsIsWs_lowerChar (c : Char) : jsIsWs (lowerChar c) = jsIsWs c := by
  unfold lowerChar
  by_cases h : isUpperB c = true
  · rw [if_pos h]
    have h' : 65 ≤ c.toNat ∧ c.toNat ≤ 90 := by
      simpa [isUpperB, Bool.and_eq_true, decide_eq_true_eq] using h
    have hR : jsIsWs c = false := by
      cases hw : jsIsWs c with
      | false => rfl
      | true =>
        exfalso
        simp only [jsIsWs, Bool.or_eq_true, Bool.and_eq_true, beq_iff_eq,
          decide_eq_true_eq] at hw
        omega
    have hL : jsIsWs (Char.ofNat (c.toNat + 32)) = false := by
      obtain ⟨h1, h2⟩ := h'
      generalize hm : c.toNat = m at h1 h2 ⊢
      interval_cases m <;> decide
    rw [hL, hR]
  · rw [if_neg h]

lemma dropWhile_ws_lower : ∀ s : Str,
    (jsToLower s).dropWhile jsIsWs = jsToLower (s.dropWhile jsIsWs) := by
  intro s
  induction s with
  | nil => rfl
  | cons c t ih =>
    show (lowerChar c :: jsToLower t).dropWhile jsIsWs = _
    rw [List.dropWhile_cons, jsIsWs_lowerChar]
    by_cases hc : jsIsWs c = true
    · rw [if_pos hc, ih, List.dropWhile_cons, if_pos hc]
    · rw [if_neg hc, List.dropWhile_cons, if_neg hc]
      rfl

lemma jsTrim_lower (s : Str) : jsTrim (jsToLower s) = jsToLower (jsTrim s) := by
  unfold jsTrim
  rw [dropWhile_ws_lower]
  rw [show (jsToLower (s.dropWhile jsIsWs)).reverse
      = jsToLower ((s.dropWhile jsIsWs).reverse) from (List.map_reverse _ _).symm]
  rw [dropWhile_ws_lower]
  rw [show (jsToLower (((s.dropWhile jsIsWs).reverse).dropWhile jsIsWs)).reverse
      = jsToLower ((((s.dropWhile jsIsWs).reverse).dropWhile jsIsWs).reverse)
      from (List.map_reverse _ _).symm]

lemma splitWsGo_lower : ∀ l acc : Str,
    splitWsGo (jsToLower l) (jsToLower acc) = (splitWsGo l acc).map jsToLower := by
  intro l
  induction l with
  | nil =>
    intro acc
    show [(jsToLower acc).reverse] = [jsToLower acc.reverse]
    rw [show (jsToLower acc).reverse = jsToLower acc.reverse
        from (List.map_reverse _ _).symm]
  | cons c t ih =>
    intro acc
    show splitWsGo (lowerChar c :: jsToLower t) (jsToLower acc) = _
    rw [splitWsGo, jsIsWs_lowerChar]
    by_cases hc : jsIsWs c = true
    · rw [if_pos hc]
      rw [show splitWsGo (c :: t) acc = acc.reverse :: splitWsGo t [] from by
        rw [splitWsGo, if_pos hc]]
      rw [List.map_cons]
      congr 1
      · exact (List.map_reverse _ _).symm
      · exact ih []
    · rw [if_neg hc]
      rw [show splitWsGo (c :: t) acc = splitWsGo t (c :: acc) from by
        rw [splitWsGo, if_neg hc]]
      exact ih (c :: acc)

lemma filter_nonempty_map_lower : ∀ ws : List Str,
    ((ws.map jsToLower).filter (fun w => !w.isEmpty))
      = (ws.filter (fun w => !w.isEmpty)).map jsToLower := by
  intro ws
  induction ws with
  | nil => rfl
  | cons w ws' ih =>
    have he : (jsToLower w).isEmpty = w.isEmpty := by cases w <;> rfl
    rw [List.map_cons, List.filter_cons, List.filter_cons, he]
    by_cases hw : (!w.isEmpty) = true
    · rw [if_pos hw, if_pos hw, List.map_cons, ih]
    · rw [if_neg hw, if_neg hw, ih]

lemma jsSplitWs_lower (X : Str) :
    jsSplitWs (jsToLower X) = (jsSplitWs X).map jsToLower := by
  cases X with
  | nil => rfl
  | cons c t =>
    show jsSplitWs (lowerChar c :: jsToLower t) = (jsSplitWs (c :: t)).map jsToLower
    unfold jsSplitWs
    rw [if_neg (by simp), if_neg (by simp)]
    rw [show splitWsGo (lowerChar c :: jsToLower t) [] = (splitWsGo (c :: t) []).map jsToLower
        from splitWsGo_lower (c :: t) []]
    exact filter_nonempty_map_lower _

lemma slugWords_map_lower (s : Str) :
    slugWords s = (jsSplitWs (jsTrim s)).map jsToLower := by
  unfold slugWords
  rw [jsTrim_lower, jsSplitWs_lower]

lemma createSlug_of_short_words (s d : Str)
    (h : ∀ w ∈ jsSplitWs (jsTrim s), w.length ≤ 2) :
    createSlug s d = createSlug [] d := by
  have h2 : ∀ w ∈ slugWords s, w.length ≤ 2 := by
    intro w hw
    rw [slugWords_map_lower] at hw
    rcases List.mem_map.mp hw with ⟨v, hv, hvw⟩
    rw [← hvw]
    show (v.map lowerChar).length ≤ 2
    rw [List.length_map]
    exact h v hv
  have hf : (slugWords s).filter (fun w => decide (2 < w.length)) = [] := by
    rw [List.filter_eq_nil_iff]
    intro w hw
    have hw2 := h2 w hw
    simp only [decide_eq_true_eq]
    omega
  unfold createSlug cleanedSlug rawSlug
  rw [hf]
  rfl

/-- C4: on the empty input, on whitespace-only inputs, and on every input
all of whose whitespace-separated words have length at most two (such as
"a b"), `createSlug` returns exactly the chosen descriptor, which never
starts with a hyphen. -/
theorem createSlug_degenerate (d : Str) (hd : d ∈ descriptors) :
    createSlug [] d = d
      ∧ (∀ s : Str, s.all jsIsWs = true → createSlug s d = d)
      ∧ (∀ s : Str, (∀ w ∈ jsSplitWs (jsTrim s), w.length ≤ 2) → createSlug s d = d)
      ∧ createSlug ("a b".toList) d = d
      ∧ headHyphen (createSlug [] d) = false := by
  obtain ⟨h1, h2, h3⟩ := descriptor_base d hd
  refine ⟨h1, fun s hs => ?_, fun s hs => ?_, h2, by rw [h1]; exact h3⟩
  · rw [createSlug_of_all_ws s d hs, h1]
  · rw [createSlug_of_short_words s d hs, h1]

theorem createSlug_degenerate_witness :
    createSlug [] ("stories".toList) = ("stories".toList)
    ∧ createSlug (" \t ".toList) ("stories".toList) = ("stories".toList)
    ∧ createSlug ("it is so".toList) ("stories".toList) = ("stories".toList)
    ∧ createSlug ("a b".toList) ("stories".toList) = ("stories".toList) :=
  ⟨(createSlug_degenerate ("stories".toList) (by decide)).1,
   (createSlug_degenerate ("stories".toList) (by decide)).2.1
     (" \t ".toList) (by decide),
   (createSlug_degenerate ("stories".toList) (by decide)).2.2.1
     ("it is so".toList) (by decide),
   (createSlug_degenerate ("stories".toList) (by decide)).2.2.2.1⟩

/-- Adjacent-hyphen-pair test: true when no two consecutive characters
are both hyphens. -/
def noDouble : Str → Bool
  | [] => true
  | [_] => true
  | a :: b :: r => !(isHyphen a && isHyphen b) && noDouble (b :: r)

/-- Characterization of the spec regex with an optional trailing hyphen,
`[a-z0-9]+(-[a-z0-9]+)*-?` anchored at both ends: non-empty, no leading
hyphen, characters restricted to `[a-z0-9-]`, no adjacent hyphens. -/
def slugRegexRelaxed (s : Str) : Bool :=
  !s.isEmpty && !headHyphen s && s.all isSlugChar && noDouble s

/-- Characterization of the spec regex `[a-z0-9]+(-[a-z0-9]+)*` anchored
at both ends: additionally no trailing hyphen. -/
def slugRegexCore (s : Str) : Bool :=
  slugRegexRelaxed s && !headHyphen s.reverse

lemma isUpperB_lowerChar (c : Char) : isUpperB (lowerChar c) = false := by
  unfold lowerChar
  by_cases h : isUpperB c = true
  · rw [if_pos h]
    have h' : 65 ≤ c.toNat ∧ c.toNat ≤ 90 := by
      simpa [isUpperB, Bool.and_eq_true, decide_eq_true_eq] using h
    obtain ⟨h1, h2⟩ := h'
    generalize hm : c.toNat = m at h1 h2 ⊢
    interval_cases m <;> decide
  · rw [if_neg h]
    exact Bool.eq_false_iff.mpr h

lemma slugChar_of_wordChar (c : Char) (h1 : isWordChar c = true)
    (h2 : isCollapsible c = false) (h3 : isUpperB c = false) :
    isSlugChar c = true := by
  simp only [isWordChar, Bool.or_eq_true] at h1
  simp only [isCollapsible, Bool.or_eq_false_iff] at h2
  rcases h1 with ((((h | h) | h) | h) | h) | h
  · simp [h] at h3
  · simp [isSlugChar, isLowerAlnum, h]
  · simp [isSlugChar, isLowerAlnum, h]
  · simp [h] at h2
  · simp [h] at h2
  · simp [isSlugChar, h]

lemma mem_dropWhile {p : Char → Bool} (c : Char) :
    ∀ l : Str, c ∈ l.dropWhile p → c ∈ l := by
  intro l
  induction l with
  | nil => intro h; exact h
  | cons a t ih =>
    intro h
    by_cases ha : p a = true
    · rw [List.dropWhile_cons, if_pos ha] at h
      exact List.mem_cons_of_mem a (ih h)
    · rw [List.dropWhile_cons, if_neg ha] at h
      exact h

lemma mem_trimBy {p : Char → Bool} (c : Char) (l : Str)
    (h : c ∈ ((l.dropWhile p).reverse.dropWhile p).reverse) : c ∈ l := by
  rw [List.mem_reverse] at h
  have h1 := mem_dropWhile c _ h
  rw [List.mem_reverse] at h1
  exact mem_dropWhile c _ h1

lemma mem_squash (c : Char) : ∀ l : Str, c ∈ squashHyphens l → c ∈ l := by
  intro l
  induction l with
  | nil => intro h; exact h
  | cons a t ih =>
    intro h
    cases t with
    | nil => simpa [squashHyphens] using h
    | cons b r =>
      rw [squashHyphens] at h
      by_cases hab : (isHyphen a && isHyphen b) = true
      · rw [if_pos hab] at h
        exact List.mem_cons_of_mem a (ih h)
      · rw [if_neg hab] at h
        rcases List.mem_cons.mp h with h' | h'
        · rw [h']
          exact List.mem_cons_self a (b :: r)
        · exact List.mem_cons_of_mem a (ih h')

lemma joinHyphen_cons_cons (w v : Str) (vs : List Str) :
    joinHyphen (w :: v :: vs) = w ++ '-' :: joinHyphen (v :: vs) := rfl

lemma mem_joinHyphen (c : Char) :
    ∀ ws : List Str, c ∈ joinHyphen ws → (∃ w ∈ ws, c ∈ w) ∨ c = '-' := by
  intro ws
  induction ws with
  | nil => intro h; simp [joinHyphen] at h
  | cons w ws' ih =>
    intro h
    cases ws' with
    | nil =>
      left
      exact ⟨w, List.mem_cons_self w [], by simpa [joinHyphen] using h⟩
    | cons v vs =>
      rw [joinHyphen_cons_cons] at h
      rcases List.mem_append.mp h with h' | h'
      · left
        exact ⟨w, List.mem_cons_self w (v :: vs), h'⟩
      · rcases List.mem_cons.mp h' with h'' | h''
        · right
          exact h''
        · rcases ih h'' with ⟨u, hu, hcu⟩ | h3
          · left
            exact ⟨u, List.mem_cons_of_mem w hu, hcu⟩
          · right
            exact h3

lemma mem_splitWsGo (c : Char) :
    ∀ (l acc w : Str), w ∈ splitWsGo l acc → c ∈ w → c ∈ l ∨ c ∈ acc := by
  intro l
  induction l with
  | nil =>
    intro acc w hw hc
    simp only [splitWsGo, List.mem_singleton] at hw
    subst hw
    right
    exact List.mem_reverse.mp hc
  | cons x t ih =>
    intro acc w hw hc
    rw [splitWsGo] at hw
    by_cases hx : jsIsWs x = true
    · rw [if_pos hx] at hw
      rcases List.mem_cons.mp hw with h | h
      · subst h
        right
        exact List.mem_reverse.mp hc
      · rcases ih [] w h hc with h' | h'
        · left
          exact List.mem_cons_of_mem x h'
        · simp at h'
    · rw [if_neg hx] at hw
      rcases ih (x :: acc) w hw hc with h' | h'
      · left
        exact List.mem_cons_of_mem x h'
      · rcases List.mem_cons.mp h' with h'' | h''
        · left
          rw [h'']
          exact List.mem_cons_self x t
        · right
          exact h''

lemma descriptor_facts (d : Str) (hd : d ∈ descriptors) :
    filterChars d = d ∧ hyphenate d = d ∧ squashHyphens d = d
    ∧ headHyphen d = false ∧ headHyphen d.reverse = false
    ∧ d.isEmpty = false ∧ d.all (fun c => !isUpperB c) = true
    ∧ d.all isSlugChar = true := by
  have h := List.all_eq_true.mp (show descriptors.all (fun w =>
      (filterChars w == w) && (hyphenate w == w) && (squashHyphens w == w)
      && !headHyphen w && !headHyphen w.reverse && !w.isEmpty
      && w.all (fun c => !isUpperB c) && w.all isSlugChar) = true by decide) d hd
  simp only [Bool.and_eq_true, beq_iff_eq, Bool.not_eq_true'] at h
  obtain ⟨⟨⟨⟨⟨⟨⟨hA, hB⟩, hC⟩, hD⟩, hE⟩, hF⟩, hG⟩, hH⟩ := h
  exact ⟨hA, hB, hC, hD, hE, hF, hG, hH⟩

lemma squashHyphens_cons_cons (a b : Char) (r : Str) :
    squashHyphens (a :: b :: r)
      = if isHyphen a && isHyphen b then squashHyphens (b :: r)
        else a :: squashHyphens (b :: r) := rfl

lemma squash_head : ∀ l : Str, headHyphen (squashHyphens l) = headHyphen l := by
  intro l
  induction l with
  | nil => rfl
  | cons a t ih =>
    cases t with
    | nil => rfl
    | cons b r =>
      rw [squashHyphens_cons_cons]
      by_cases hab : (isHyphen a && isHyphen b) = true
      · rw [if_pos hab, ih]
        show isHyphen b = isHyphen a
        rw [Bool.and_eq_true] at hab
        rw [hab.1, hab.2]
      · rw [if_neg hab]
        rfl

lemma squash_noDouble : ∀ l : Str, noDouble (squashHyphens l) = true := by
  intro l
  induction l with
  | nil => rfl
  | cons a t ih =>
    cases t with
    | nil => rfl
    | cons b r =>
      rw [squashHyphens_cons_cons]
      by_cases hab : (isHyphen a && isHyphen b) = true
      · rw [if_pos hab]
        exact ih
      · rw [if_neg hab]
        cases hsq : squashHyphens (b :: r) with
        | nil => rfl
        | cons y ys =>
          rw [noDouble, Bool.and_eq_true]
          constructor
          · have hhead : isHyphen y = isHyphen b := by
              have h1 := squash_head (b :: r)
              rw [hsq] at h1
              exact h1
            rw [Bool.not_eq_true', hhead]
            exact Bool.eq_false_iff.mpr hab
          · have h2 := ih
            rw [hsq] at h2
            exact h2

lemma noDouble_cons_tail (a : Char) (l : Str) (h : noDouble (a :: l) = true) :
    noDouble l = true := by
  cases l with
  | nil => rfl
  | cons b r =>
    rw [noDouble, Bool.and_eq_true] at h
    exact h.2

lemma noDouble_append_right : ∀ xs ys : Str, noDouble (xs ++ ys) = true → noDouble ys = true := by
  intro xs
  induction xs with
  | nil => intro ys h; exact h
  | cons a t ih =>
    intro ys h
    exact ih ys (noDouble_cons_tail a (t ++ ys) h)

lemma noDouble_append_left : ∀ xs ys : Str, noDouble (xs ++ ys) = true → noDouble xs = true := by
  intro xs
  induction xs with
  | nil => intro ys h; rfl
  | cons a t ih =>
    intro ys h
    cases t with
    | nil => rfl
    | cons b r =>
      have h' : noDouble (a :: b :: (r ++ ys)) = true := h
      rw [noDouble, Bool.and_eq_true] at h'
      rw [noDouble, Bool.and_eq_true]
      exact ⟨h'.1, ih ys h'.2⟩

lemma headHyphen_append (A B : Str) (hA : A ≠ []) :
    headHyphen (A ++ B) = headHyphen A := by
  cases A with
  | nil => exact absurd rfl hA
  | cons a t => rfl

lemma noDouble_concat (x : Char) :
    ∀ l : Str,
      noDouble (l ++ [x]) = (noDouble l && !(headHyphen l.reverse && isHyphen x)) := by
  intro l
  induction l with
  | nil => simp [noDouble, headHyphen]
  | cons a t ih =>
    cases t with
    | nil => simp [noDouble, headHyphen]
    | cons b r =>
      have hL : noDouble ((a :: b :: r) ++ [x])
          = (!(isHyphen a && isHyphen b) && noDouble ((b :: r) ++ [x])) := rfl
      rw [hL, ih]
      have hrev : headHyphen ((a :: b :: r).reverse) = headHyphen ((b :: r).reverse) := by
        rw [List.reverse_cons]
        exact headHyphen_append _ _ (by simp)
      rw [noDouble, hrev, Bool.and_assoc]

lemma noDouble_reverse : ∀ l : Str, noDouble l.reverse = noDouble l := by
  intro l
  induction l with
  | nil => rfl
  | cons a t ih =>
    rw [List.reverse_cons, noDouble_concat, ih, List.reverse_reverse]
    cases t with
    | nil => simp [noDouble, headHyphen]
    | cons b r => simp [noDouble, headHyphen, Bool.and_comm]

lemma exists_dropWhile_suffix (p : Char → Bool) :
    ∀ l : Str, ∃ t, t ++ l.dropWhile p = l := by
  intro l
  induction l with
  | nil => exact ⟨[], rfl⟩
  | cons a r ih =>
    by_cases ha : p a = true
    · obtain ⟨t, ht⟩ := ih
      exact ⟨a :: t, by rw [List.dropWhile_cons, if_pos ha, List.cons_append, ht]⟩
    · exact ⟨[], by rw [List.dropWhile_cons, if_neg ha]; rfl⟩

lemma headHyphen_dropWhile : ∀ l : Str, headHyphen (l.dropWhile isHyphen) = false := by
  intro l
  induction l with
  | nil => rfl
  | cons a r ih =>
    by_cases ha : isHyphen a = true
    · rw [List.dropWhile_cons, if_pos ha]
      exact ih
    · rw [List.dropWhile_cons, if_neg ha]
      exact Bool.eq_false_iff.mpr ha

lemma squash_suffix (t : Str) (hs : squashHyphens t = t) (hh : headHyphen t = false) :
    ∀ X : Str, t <:+ squashHyphens (X ++ '-' :: t) := by
  intro X
  induction X with
  | nil =>
    cases t with
    | nil => exact List.nil_suffix
    | cons b r =>
      have hb : isHyphen b = false := hh
      have hcond : (isHyphen '-' && isHyphen b) = false := by
        rw [hb]
        exact Bool.and_false _
      show (b :: r) <:+ squashHyphens ('-' :: b :: r)
      rw [squashHyphens_cons_cons,
        if_neg (by rw [hcond]; exact Bool.false_ne_true), hs]
      exact List.suffix_cons '-' (b :: r)
  | cons x X' ih =>
    obtain ⟨b, r, hbr⟩ : ∃ b r, X' ++ '-' :: t = b :: r := by
      cases X' with
      | nil => exact ⟨'-', t, rfl⟩
      | cons u v => exact ⟨u, v ++ '-' :: t, rfl⟩
    rw [List.cons_append, hbr]
    rw [hbr] at ih
    by_cases hxb : (isHyphen x && isHyphen b) = true
    · rw [squashHyphens_cons_cons, if_pos hxb]
      exact ih
    · rw [squashHyphens_cons_cons, if_neg hxb]
      obtain ⟨pre, hpre⟩ := ih
      exact ⟨x :: pre, by rw [List.cons_append, hpre]⟩

lemma suffix_dropWhile (t : Str) (hh : headHyphen t = false) :
    ∀ l : Str, t <:+ l → t <:+ l.dropWhile isHyphen := by
  intro l
  induction l with
  | nil => intro h; exact h
  | cons x l' ih =>
    intro h
    by_cases hx : isHyphen x = true
    · rw [List.dropWhile_cons, if_pos hx]
      apply ih
      obtain ⟨pre, hpre⟩ := h
      cases pre with
      | nil =>
        rw [List.nil_append] at hpre
        rw [hpre] at hh
        have : headHyphen (x :: l') = true := by
          show isHyphen x = true
          exact hx
        rw [this] at hh
        simp at hh
      | cons y pre' =>
        rw [List.cons_append] at hpre
        injection hpre with h1 h2
        exact ⟨pre', h2⟩
    · rw [List.dropWhile_cons, if_neg hx]
      exact h

/-- The word part of `complexSlug` before the descriptor is appended
(index.ts lines 595-598). -/
def slugStem (s : Str) : Str :=
  joinHyphen (((slugWords s).filter (fun w => decide (2 < w.length))).take 3)

lemma rawSlug_eq (s d : Str) : rawSlug s d = slugStem s ++ '-' :: d := rfl

lemma filterChars_cons_hyphen (l : Str) :
    filterChars ('-' :: l) = '-' :: filterChars l := by
  have h : isWordChar '-' = true := by decide
  simp [filterChars, List.filter_cons, h]

lemma hyphenate_cons_hyphen (l : Str) :
    hyphenate ('-' :: l) = '-' :: hyphenate l := by
  have h : isCollapsible '-' = true := by decide
  simp [hyphenate, h]

lemma rawSlug_notUpper (s d : Str) (hd : d ∈ descriptors) :
    ∀ c ∈ rawSlug s d, isUpperB c = false := by
  intro c hc
  rw [rawSlug_eq] at hc
  rcases List.mem_append.mp hc with h | h
  · rcases mem_joinHyphen c _ h with ⟨w, hw, hcw⟩ | h'
    · have hw1 : w ∈ (slugWords s).filter (fun w => decide (2 < w.length)) :=
        (List.take_sublist 3 _).subset hw
      have hw2 : w ∈ slugWords s := (List.mem_filter.mp hw1).1
      have hct : c ∈ jsTrim (jsToLower s) := by
        unfold slugWords jsSplitWs at hw2
        by_cases ht : (jsTrim (jsToLower s)).isEmpty = true
        · rw [if_pos ht] at hw2
          rw [List.mem_singleton] at hw2
          subst hw2
          simp at hcw
        · rw [if_neg ht] at hw2
          have hw3 : w ∈ splitWsGo (jsTrim (jsToLower s)) [] :=
            (List.mem_filter.mp hw2).1
          rcases mem_splitWsGo c _ _ w hw3 hcw with h' | h'
          · exact h'
          · simp at h'
      have hcl : c ∈ jsToLower s := mem_trimBy c _ hct
      rcases List.mem_map.mp hcl with ⟨b, _, hb⟩
      rw [← hb]
      exact isUpperB_lowerChar b
    · rw [h']
      decide
  · rcases List.mem_cons.mp h with h' | h'
    · rw [h']
      decide
    · have hup := (descriptor_facts d hd).2.2.2.2.2.2.1
      have := List.all_eq_true.mp hup c h'
      rwa [Bool.not_eq_true'] at this

lemma mem_cleanedSlug_slugChar (s d : Str) (hd : d ∈ descriptors) :
    ∀ c ∈ cleanedSlug s d, isSlugChar c = true := by
  intro c hc
  have hc1 : c ∈ collapseRuns (filterChars (rawSlug s d)) := mem_trimBy c _ hc
  have hc2 : c ∈ hyphenate (filterChars (rawSlug s d)) := mem_squash c _ hc1
  rcases List.mem_map.mp hc2 with ⟨a, ha, hca⟩
  by_cases hcol : isCollapsible a = true
  · rw [if_pos hcol] at hca
    rw [← hca]
    decide
  · rw [if_neg hcol] at hca
    subst hca
    have hw : isWordChar a = true := (List.mem_filter.mp ha).2
    have hmem : a ∈ rawSlug s d := (List.mem_filter.mp ha).1
    exact slugChar_of_wordChar a hw (Bool.eq_false_iff.mpr hcol)
      (rawSlug_notUpper s d hd a hmem)

lemma cleaned_core (s d : Str) (hd : d ∈ descriptors) :
    d <:+ cleanedSlug s d
    ∧ headHyphen (cleanedSlug s d) = false
    ∧ headHyphen (cleanedSlug s d).reverse = false
    ∧ noDouble (cleanedSlug s d) = true := by
  obtain ⟨hfd, hhd, hsq, hhead, hlast, hne, _, _⟩ := descriptor_facts d hd
  have hdne : d ≠ [] := by
    cases d with
    | nil => simp at hne
    | cons a t => simp
  have hcol : collapseRuns (filterChars (rawSlug s d))
      = squashHyphens (hyphenate (filterChars (slugStem s)) ++ '-' :: d) := by
    rw [rawSlug_eq]
    unfold collapseRuns
    rw [show filterChars (slugStem s ++ '-' :: d)
          = filterChars (slugStem s) ++ '-' :: d from by
        unfold filterChars
        rw [List.filter_append]
        rw [show List.filter isWordChar ('-' :: d) = '-' :: List.filter isWordChar d
            from filterChars_cons_hyphen d]
        rw [show List.filter isWordChar d = d from hfd]]
    rw [show hyphenate (filterChars (slugStem s) ++ '-' :: d)
          = hyphenate (filterChars (slugStem s)) ++ '-' :: d from by
        unfold hyphenate
        rw [List.map_append]
        rw [show List.map _ ('-' :: d) = '-' :: hyphenate d from hyphenate_cons_hyphen d]
        rw [show hyphenate d = d from hhd]]
  have hQsuf : d <:+ squashHyphens (hyphenate (filterChars (slugStem s)) ++ '-' :: d) :=
    squash_suffix d hsq hhead _
  have hsufA : d <:+ (squashHyphens (hyphenate (filterChars (slugStem s)) ++ '-' :: d)).dropWhile isHyphen := by
    apply suffix_dropWhile d hhead
    exact hQsuf
  obtain ⟨pre, hpre⟩ := hsufA
  have hdrevne : d.reverse ≠ [] := by simp [hdne]
  have hArev : ((squashHyphens (hyphenate (filterChars (slugStem s)) ++ '-' :: d)).dropWhile isHyphen).reverse
      = d.reverse ++ pre.reverse := by
    rw [← hpre, List.reverse_append]
  have hdrev : headHyphen ((squashHyphens (hyphenate (filterChars (slugStem s)) ++ '-' :: d)).dropWhile isHyphen).reverse = false := by
    rw [hArev, headHyphen_append _ _ hdrevne]
    exact hlast
  have hid : (((squashHyphens (hyphenate (filterChars (slugStem s)) ++ '-' :: d)).dropWhile isHyphen).reverse).dropWhile isHyphen
      = ((squashHyphens (hyphenate (filterChars (slugStem s)) ++ '-' :: d)).dropWhile isHyphen).reverse := by
    cases hrv : (((squashHyphens (hyphenate (filterChars (slugStem s)) ++ '-' :: d)).dropWhile isHyphen).reverse) with
    | nil => rfl
    | cons c rest =>
      have hc : isHyphen c = false := by
        have h0 := hdrev
        rw [hrv] at h0
        exact h0
      rw [List.dropWhile_cons, if_neg (by rw [hc]; exact Bool.false_ne_true)]
  have hclean : cleanedSlug s d
      = (squashHyphens (hyphenate (filterChars (slugStem s)) ++ '-' :: d)).dropWhile isHyphen := by
    unfold cleanedSlug stripHyphens
    rw [hcol, hid, List.reverse_reverse]
  refine ⟨?_, ?_, ?_, ?_⟩
  · rw [hclean]
    exact ⟨pre, hpre⟩
  · rw [hclean]
    exact headHyphen_dropWhile _
  · rw [hclean]
    exact hdrev
  · rw [hclean]
    obtain ⟨t0, ht0⟩ := exists_dropWhile_suffix isHyphen
      (squashHyphens (hyphenate (filterChars (slugStem s)) ++ '-' :: d))
    apply noDouble_append_right t0
    rw [ht0]
    exact squash_noDouble _

lemma isEmpty_take50 (l : Str) (h : l ≠ []) : ((l.take 50).isEmpty) = false := by
  cases l with
  | nil => exact absurd rfl h
  | cons c rest => rfl

lemma headHyphen_take50 (l : Str) : headHyphen (l.take 50) = headHyphen l := by
  cases l with
  | nil => rfl
  | cons c rest => rfl

/-- C2 (amended): for every input and every descriptor in the fixed set,
the slug has length at most fifty, matches the relaxed anchored regex
`[a-z0-9]+(-[a-z0-9]+)*-?` (in particular it is non-empty and never
starts with a hyphen), and whenever the fifty-character truncation did
not clip the cleaned slug it matches the anchored regex
`[a-z0-9]+(-[a-z0-9]+)*` (so no trailing hyphen) and ends with the
chosen descriptor.  A trailing bare hyphen can therefore occur only when
truncation clipped the end. -/
theorem createSlug_shape (s d : Str) (hd : d ∈ descriptors) (hs : s ≠ []) :
    (createSlug s d).length ≤ 50
    ∧ slugRegexRelaxed (createSlug s d) = true
    ∧ ((cleanedSlug s d).length ≤ 50 →
        slugRegexCore (createSlug s d) = true ∧ d <:+ createSlug s d) := by
  obtain ⟨hsuf, hhead, hlastA, hnd⟩ := cleaned_core s d hd
  have hdne : d ≠ [] := by
    have hne := (descriptor_facts d hd).2.2.2.2.2.1
    cases d with
    | nil => simp at hne
    | cons a t => simp
  have hne : cleanedSlug s d ≠ [] := by
    obtain ⟨pre, hpre⟩ := hsuf
    intro h0
    rw [h0] at hpre
    exact hdne (List.append_eq_nil.mp hpre).2
  have hrel : slugRegexRelaxed (createSlug s d) = true := by
    unfold slugRegexRelaxed
    rw [Bool.and_eq_true, Bool.and_eq_true, Bool.and_eq_true]
    refine ⟨⟨⟨?_, ?_⟩, ?_⟩, ?_⟩
    · rw [Bool.not_eq_true']
      exact isEmpty_take50 _ hne
    · rw [Bool.not_eq_true']
      show headHyphen ((cleanedSlug s d).take 50) = false
      rw [headHyphen_take50]
      exact hhead
    · rw [List.all_eq_true]
      intro c hc
      exact mem_cleanedSlug_slugChar s d hd c
        ((List.take_sublist 50 _).subset hc)
    · show noDouble ((cleanedSlug s d).take 50) = true
      apply noDouble_append_left _ ((cleanedSlug s d).drop 50)
      rw [List.take_append_drop]
      exact hnd
  refine ⟨?_, hrel, ?_⟩
  · show ((cleanedSlug s d).take 50).length ≤ 50
    rw [List.length_take]
    exact Nat.min_le_left _ _
  · intro h50
    have hts : createSlug s d = cleanedSlug s d := by
      show (cleanedSlug s d).take 50 = cleanedSlug s d
      exact List.take_of_length_le h50
    constructor
    · unfold slugRegexCore
      rw [Bool.and_eq_true]
      refine ⟨hrel, ?_⟩
      rw [Bool.not_eq_true', hts]
      exact hlastA
    · rw [hts]
      exact hsuf

theorem createSlug_shape_witness :
    (createSlug ("hello world".toList) ("guide".toList)).length ≤ 50
    ∧ slugRegexRelaxed (createSlug ("hello world".toList) ("guide".toList)) = true
    ∧ slugRegexCore (createSlug ("hello world".toList) ("guide".toList)) = true
    ∧ ("guide".toList) <:+ createSlug ("hello world".toList) ("guide".toList) := by
  have h := createSlug_shape ("hello world".toList) ("guide".toList)
    (by decide) (by decide)
  exact ⟨h.1, h.2.1, (h.2.2 (by decide)).1, (h.2.2 (by decide)).2⟩

/-- C2 counterexample: on the non-empty input of forty-nine letters `a`,
for every possible random descriptor, the fifty-character truncation
leaves a slug that ends with a bare hyphen and fails the anchored regex
`[a-z0-9]+(-[a-z0-9]+)*`, refuting the claim that the slug never ends
with a bare hyphen even when truncation clipped the descriptor. -/
theorem createSlug_trailing_hyphen_cex :
    ((List.replicate 49 'a').isEmpty = false)
    ∧ (descriptors.all (fun d =>
        headHyphen ((createSlug (List.replicate 49 'a') d).reverse)
          && !slugRegexCore (createSlug (List.replicate 49 'a') d)) = true) :=
  ⟨by decide, by decide⟩

/-- One row of the `podcasts` table (spec section 3, PodcastRecord). -/
structure PodcastRow where
  topic : Str
  slug : Str
  url : Str
  created_at : Str
deriving DecidableEq

/-- Behaviour of one tabular-store (D1 REST) call as observed by the
wrapper: either the container execution or `JSON.parse` throws, or a
parsed JSON object with a `success` flag and, when the shape
`result[0].results` is present, the row list. -/
inductive StoreResp
  | throws (e : Str)
  | parsed (success : Bool) (rows : Option (List PodcastRow))
deriving DecidableEq

/-- Behaviour of one inference (Workers AI) call: throw, or a parsed
object with a `success` flag and an optional `result.response` text. -/
inductive AiResp
  | throws (e : Str)
  | parsed (success : Bool) (response : Option Str)
deriving DecidableEq

/-- Behaviour of the text-completion collaborator used by
`generateLLMSlug`: throw, or answer with raw text. -/
inductive LlmResp
  | throws (e : Str)
  | answers (raw : Str)
deriving DecidableEq

/-- Behaviour of the container execution inside `savePodcastToD1`. -/
inductive ExecResp
  | throws (e : Str)
  | ok (out : Str)
deriving DecidableEq

def credsRequiredDbMsg : Str :=
  "Error: Cloudflare credentials are required to access the database. Please provide all three secrets.".toList

def credsRequiredAiMsg : Str :=
  "Error: Cloudflare credentials are required to access the database and AI. Please provide all three secrets.".toList

def dbRetrieveErrMsg : Str :=
  "Error retrieving podcasts from database. Make sure your credentials are correct.".toList

def noPodcastsYetMsg : Str :=
  "No podcasts found in the database yet. Generate your first podcast to get started!".toList

def noPodcastsRecMsg : Str :=
  "No podcasts found in the database yet. Generate some podcasts first to get recommendations!".toList

def queryDbErrMsg (e : Str) : Str := ("Error querying database: ".toList) ++ e

def searchDbErrMsg (e : Str) : Str := ("Error searching database: ".toList) ++ e

def recErrMsg (e : Str) : Str := ("Error getting recommendations: ".toList) ++ e

def searchNoMatchMsg (term : Str) : Str :=
  ("No podcasts found matching \"".toList) ++ term
    ++ ("\". Try a different search term.".toList)

def aiRecMsg (r : Str) : Str := ("🤖 AI Podcast Recommendation:\n\n".toList) ++ r

def matchFoundMsg (fmt : Str → Str) (preference : Str) (m : PodcastRow) : Str :=
  ("🎯 Found a matching podcast!\n\n\"".toList) ++ m.topic
    ++ ("\"\n📅 Generated: ".toList) ++ fmt m.created_at
    ++ ("\n🔗 Listen here: ".toList) ++ m.url
    ++ ("\n\nThis podcast matches your preference for: ".toList) ++ preference

def noMatchMsg (preference : Str) : Str :=
  ("😔 No podcasts found matching \"".toList) ++ preference
    ++ ("\". Try generating some podcasts with topics you're interested in first!".toList)

def concatAll : List Str → Str
  | [] => []
  | s :: t => s ++ concatAll t

/-- One formatted entry of the listing output (index.ts lines 342-348 and
531-537), with the locale-dependent `new Date(...).toLocaleDateString()`
modelled by the abstract formatter `fmt`. -/
def formatPodcastRow (fmt : Str → Str) (i : Nat) (p : PodcastRow) : Str :=
  ((Nat.repr (i + 1)).toList) ++ (". \"".toList) ++ p.topic
    ++ ("\"\n   📅 Generated: ".toList) ++ fmt p.created_at
    ++ ("\n   🔗 URL: ".toList) ++ p.url
    ++ ("\n   📝 Slug: ".toList) ++ p.slug ++ ("\n\n".toList)

/-- Full success output of `getPreviousPodcasts` (index.ts lines 340-350). -/
def formatPodcastList (fmt : Str → Str) (rows : List PodcastRow) : Str :=
  ("Found ".toList) ++ ((Nat.repr rows.length).toList)
    ++ (" previously generated podcast(s):\n\n".toList)
    ++ concatAll (rows.enum.map (fun ip => formatPodcastRow fmt ip.1 ip.2))

/-- Full success output of `searchPodcasts` (index.ts lines 529-539). -/
def searchResultList (fmt : Str → Str) (term : Str) (rows : List PodcastRow) : Str :=
  ("Found ".toList) ++ ((Nat.repr rows.length).toList)
    ++ (" podcast(s) matching \"".toList) ++ term ++ ("\":\n\n".toList)
    ++ concatAll (rows.enum.map (fun ip => formatPodcastRow fmt ip.1 ip.2))

/-- Result of one `getPreviousPodcasts` call: the returned text, how many
store calls were made, and the LIMIT bind value of the issued SELECT
(`none` when no query was issued). -/
structure ListOutcome where
  output : Str
  storeCalls : Nat
  issuedLimit : Option Int
deriving DecidableEq

/-- The try-block of `getPreviousPodcasts` (index.ts lines 311-353):
a throwing execution or parse is an `Except.error` carrying the thrown
value; otherwise the shape checks of line 332 select the branch. -/
def getPreviousPodcastsBody (store : StoreResp) (fmt : Str → Str) : Except Str Str :=
  match store with
  | .throws e => .error e
  | .parsed success rows =>
    match success, rows with
    | true, some podcasts =>
      .ok (if podcasts.isEmpty then noPodcastsYetMsg else formatPodcastList fmt podcasts)
    | _, _ => .ok dbRetrieveErrMsg

/-- Model of `getPreviousPodcasts` (index.ts lines 287-357).  An absent
secret short-circuits before any call; otherwise the effective limit is
`limit || 10` (line 312) and the catch turns a thrown value into the
"Error querying database" message (line 355). -/
def getPreviousPodcasts (limit : Option Int)
    (cloudflareAccountId cloudflareDatabaseId cloudflareApiToken : Option Str)
    (store : StoreResp) (fmt : Str → Str) : ListOutcome :=
  if cloudflareAccountId.isNone || cloudflareDatabaseId.isNone
      || cloudflareApiToken.isNone then
    ⟨credsRequiredDbMsg, 0, none⟩
  else
    let maxResults : Int := match limit with
      | none => 10
      | some n => if n = 0 then 10 else n
    match getPreviousPodcastsBody store fmt with
    | .ok s => ⟨s, 1, some maxResults⟩
    | .error e => ⟨queryDbErrMsg e, 1, some maxResults⟩

/-- Result of one `searchPodcasts` call: output and store-call count. -/
structure SearchOutcome where
  output : Str
  storeCalls : Nat
deriving DecidableEq

/-- The try-block of `searchPodcasts` (index.ts lines 502-541). -/
def searchPodcastsBody (searchTerm : Str) (store : StoreResp)
    (fmt : Str → Str) : Except Str Str :=
  match store with
  | .throws e => .error e
  | .parsed success rows =>
    match success, rows with
    | true, some podcasts =>
      .ok (if podcasts.isEmpty then searchNoMatchMsg searchTerm
           else searchResultList fmt searchTerm podcasts)
    | _, _ => .ok dbRetrieveErrMsg

/-- Model of `searchPodcasts` (index.ts lines 478-546). -/
def searchPodcasts (searchTerm : Str)
    (cloudflareAccountId cloudflareDatabaseId cloudflareApiToken : Option Str)
    (store : StoreResp) (fmt : Str → Str) : SearchOutcome :=
  if cloudflareAccountId.isNone || cloudflareDatabaseId.isNone
      || cloudflareApiToken.isNone then
    ⟨credsRequiredDbMsg, 0⟩
  else
    match searchPodcastsBody searchTerm store fmt with
    | .ok s => ⟨s, 1⟩
    | .error e => ⟨searchDbErrMsg e, 1⟩

/-- Worker for splitting on one fixed character, keeping empty
components, the semantics of JavaScript `split(' ')`. -/
def splitCharGo (sep : Char) : Str → Str → List Str
  | [], acc => [acc.reverse]
  | c :: t, acc =>
    if c = sep then acc.reverse :: splitCharGo sep t [] else splitCharGo sep t (c :: acc)

/-- Model of `preference.split(' ')` (index.ts line 457). -/
def jsSplitChar (sep : Char) (s : Str) : List Str := splitCharGo sep s []

/-- Needle-at-position test for the substring check. -/
def isSubAt : Str → Str → Bool
  | [], _ => true
  | _ :: _, [] => false
  | a :: as, b :: bs => (a == b) && isSubAt as bs

/-- Model of JavaScript `String.prototype.includes` (index.ts line 459):
true when the needle occurs contiguously in the haystack. -/
def strIncludes (needle : Str) : Str → Bool
  | [] => needle.isEmpty
  | c :: t => isSubAt needle (c :: t) || strIncludes needle t

/-- The keyword fallback filter of `recommendPodcast` (index.ts lines
457-460): rows whose lowercased topic contains some word of the
lowercased preference split on single spaces. -/
def keywordMatches (preference : Str) (podcasts : List PodcastRow) : List PodcastRow :=
  let keywords := jsSplitChar ' ' (jsToLower preference)
  podcasts.filter (fun p => keywords.any (fun k => strIncludes k (jsToLower p.topic)))

/-- Result of one `recommendPodcast` call: output, store-call count and
inference-call count. -/
structure RecommendOutcome where
  output : Str
  storeCalls : Nat
  aiCalls : Nat
deriving DecidableEq

/-- Model of `recommendPodcast` (index.ts lines 362-473).  One try-block
wraps both collaborator calls, so a throw from either one reaches the
catch of line 470; the keyword fallback runs only when the inference
response parsed but failed the shape check of line 453. -/
def recommendPodcast (preference : Str)
    (cloudflareAccountId cloudflareDatabaseId cloudflareApiToken : Option Str)
    (store : StoreResp) (ai : AiResp) (fmt : Str → Str) : RecommendOutcome :=
  if cloudflareAccountId.isNone || cloudflareDatabaseId.isNone
      || cloudflareApiToken.isNone then
    ⟨credsRequiredAiMsg, 0, 0⟩
  else
    match store with
    | .throws e => ⟨recErrMsg e, 1, 0⟩
    | .parsed success rows =>
      match success, rows with
      | true, some podcasts =>
        if podcasts.isEmpty then ⟨noPodcastsRecMsg, 1, 0⟩
        else
          match ai with
          | .throws e => ⟨recErrMsg e, 1, 1⟩
          | .parsed aiSuccess resp =>
            match aiSuccess, resp with
            | true, some r => ⟨aiRecMsg r, 1, 1⟩
            | _, _ =>
              match keywordMatches preference podcasts with
              | [] => ⟨noMatchMsg preference, 1, 1⟩
              | m :: _ => ⟨matchFoundMsg fmt preference m, 1, 1⟩
      | _, _ => ⟨dbRetrieveErrMsg, 1, 0⟩

def objectPromiseStr : Str := "objectpromise".toList

/-- The cleaning chain applied to the raw collaborator text in
`generateLLMSlug` (index.ts line 257): trim, lowercase, remove every
character outside `[a-z0-9-]`, merge hyphen runs, strip edge hyphens. -/
def llmSlugClean (raw : Str) : Str :=
  stripHyphens (squashHyphens ((jsToLower (jsTrim raw)).filter
    (fun c => isLowerAlnum c || isHyphen c)))

/-- Model of `generateLLMSlug` (index.ts lines 226-269), with the
collaborator behaviour and the descriptor for the `createSlug` fallback
passed explicitly. -/
def generateLLMSlug (query d : Str) (llm : LlmResp) : Str :=
  match llm with
  | .throws _ => createSlug query d
  | .answers raw =>
    let cleaned := llmSlugClean raw
    if 0 < cleaned.length ∧ cleaned ≠ objectPromiseStr then cleaned
    else createSlug query d

/-- Modelled from the spec wording of claim C8: sanitize a candidate by
steps five to seven of the deriveSlug algorithm, i.e. remove characters
outside `[\w\s-]`, collapse whitespace/underscore/hyphen runs to single
hyphens, and strip leading and trailing hyphens. -/
def sanitizeSteps567 (raw : Str) : Str :=
  stripHyphens (collapseRuns (filterChars raw))

/-- Modelled from the amended claim C8: trim and lowercase the raw
candidate, remove every character outside `[a-z0-9-]`, collapse hyphen
runs into single hyphens, strip leading and trailing hyphens. -/
def llmSanitizeSpecAmended (raw : Str) : Str :=
  stripHyphens (squashHyphens ((jsToLower (jsTrim raw)).filter
    (fun c => isLowerAlnum c || isHyphen c)))

/-- The try-block of `savePodcastToD1` (index.ts lines 556-577). -/
def savePodcastBody (store : ExecResp) : Except Str Str :=
  match store with
  | .throws e => .error e
  | .ok out => .ok out

/-- Model of `savePodcastToD1` (index.ts lines 548-581): the catch of
line 578 silently swallows every failure. -/
def savePodcastToD1 (topic slug url : Str) (store : ExecResp) : Except Str Unit :=
  match savePodcastBody store with
  | .ok _ => .ok ()
  | .error _ => .ok ()

/-- Model of the secret-bearing `generatePodcast` (index.ts lines
160-221): derive the slug via `generateLLMSlug`, compose the URL, obtain
the announcement from the text-completion collaborator (passed in as
`announcement`), and, only when all three secrets are present, await the
persistence call, whose failure would propagate as `Except.error` if
`savePodcastToD1` ever produced one. -/
def generatePodcast (query : Str) (baseUrl : Option Str)
    (cloudflareAccountId cloudflareDatabaseId cloudflareApiToken : Option Str)
    (d : Str) (llm : LlmResp) (announcement : Str) (store : ExecResp) :
    Except Str (Str × Nat) :=
  let slug := generateLLMSlug query d llm
  let fullUrl := composeUrl baseUrl slug
  if cloudflareAccountId.isSome && cloudflareDatabaseId.isSome
      && cloudflareApiToken.isSome then
    match savePodcastToD1 query slug fullUrl store with
    | .ok _ => .ok (announcement, 1)
    | .error e => .error e
  else
    .ok (announcement, 0)

/-- C5: with any of the three credentials absent, each of the three
store-touching functions returns its fixed credentials-required message
and performs zero store calls and zero inference calls. -/
theorem missing_credentials_short_circuit
    (cloudflareAccountId cloudflareDatabaseId cloudflareApiToken : Option Str)
    (h : cloudflareAccountId = none ∨ cloudflareDatabaseId = none
      ∨ cloudflareApiToken = none) :
    (∀ (limit : Option Int) (store : StoreResp) (fmt : Str → Str),
      getPreviousPodcasts limit cloudflareAccountId cloudflareDatabaseId
          cloudflareApiToken store fmt
        = ⟨credsRequiredDbMsg, 0, none⟩)
    ∧ (∀ (term : Str) (store : StoreResp) (fmt : Str → Str),
      searchPodcasts term cloudflareAccountId cloudflareDatabaseId
          cloudflareApiToken store fmt
        = ⟨credsRequiredDbMsg, 0⟩)
    ∧ (∀ (preference : Str) (store : StoreResp) (ai : AiResp) (fmt : Str → Str),
      recommendPodcast preference cloudflareAccountId cloudflareDatabaseId
          cloudflareApiToken store ai fmt
        = ⟨credsRequiredAiMsg, 0, 0⟩) := by
  have hc : (cloudflareAccountId.isNone || cloudflareDatabaseId.isNone
      || cloudflareApiToken.isNone) = true := by
    rcases h with h | h | h <;> simp [h]
  refine ⟨?_, ?_, ?_⟩
  · intro limit store fmt
    unfold getPreviousPodcasts
    rw [if_pos hc]
  · intro term store fmt
    unfold searchPodcasts
    rw [if_pos hc]
  · intro preference store ai fmt
    unfold recommendPodcast
    rw [if_pos hc]

theorem missing_credentials_short_circuit_witness :
    (getPreviousPodcasts (some 3) none (some ("b".toList)) (some ("c".toList))
        (.parsed true (some [])) id)
      = ⟨credsRequiredDbMsg, 0, none⟩
    ∧ (searchPodcasts ("x".toList) none (some ("b".toList)) (some ("c".toList))
        (.parsed true (some [])) id)
      = ⟨credsRequiredDbMsg, 0⟩
    ∧ (recommendPodcast ("x".toList) none (some ("b".toList)) (some ("c".toList))
        (.parsed true (some [])) (.parsed true none) id)
      = ⟨credsRequiredAiMsg, 0, 0⟩ :=
  ⟨(missing_credentials_short_circuit none (some ("b".toList)) (some ("c".toList))
      (Or.inl rfl)).1 (some 3) (.parsed true (some [])) id,
   (missing_credentials_short_circuit none (some ("b".toList)) (some ("c".toList))
      (Or.inl rfl)).2.1 ("x".toList) (.parsed true (some [])) id,
   (missing_credentials_short_circuit none (some ("b".toList)) (some ("c".toList))
      (Or.inl rfl)).2.2 ("x".toList) (.parsed true (some []))
      (.parsed true none) id⟩

/-- C6: with credentials present, a store response with `success` false
or with the `result[0].results` shape missing makes listing and search
return the fixed retrieval-error message; and for every credential set
and every store behaviour (throwing included) both functions return one
of their enumerated descriptive strings, never a raised failure. -/
theorem store_error_resilience (a b c : Str) :
    (∀ (limit : Option Int) (rows : Option (List PodcastRow)) (fmt : Str → Str),
      (getPreviousPodcasts limit (some a) (some b) (some c)
          (.parsed false rows) fmt).output = dbRetrieveErrMsg)
    ∧ (∀ (limit : Option Int) (success : Bool) (fmt : Str → Str),
      (getPreviousPodcasts limit (some a) (some b) (some c)
          (.parsed success none) fmt).output = dbRetrieveErrMsg)
    ∧ (∀ (term : Str) (rows : Option (List PodcastRow)) (fmt : Str → Str),
      (searchPodcasts term (some a) (some b) (some c)
          (.parsed false rows) fmt).output = dbRetrieveErrMsg)
    ∧ (∀ (term : Str) (success : Bool) (fmt : Str → Str),
      (searchPodcasts term (some a) (some b) (some c)
          (.parsed success none) fmt).output = dbRetrieveErrMsg)
    ∧ (∀ (limit : Option Int) (c1 c2 c3 : Option Str) (store : StoreResp)
        (fmt : Str → Str),
      (getPreviousPodcasts limit c1 c2 c3 store fmt).output = credsRequiredDbMsg
      ∨ (∃ e, (getPreviousPodcasts limit c1 c2 c3 store fmt).output = queryDbErrMsg e)
      ∨ (getPreviousPodcasts limit c1 c2 c3 store fmt).output = dbRetrieveErrMsg
      ∨ (getPreviousPodcasts limit c1 c2 c3 store fmt).output = noPodcastsYetMsg
      ∨ (∃ rows, (getPreviousPodcasts limit c1 c2 c3 store fmt).output
          = formatPodcastList fmt rows))
    ∧ (∀ (term : Str) (c1 c2 c3 : Option Str) (store : StoreResp)
        (fmt : Str → Str),
      (searchPodcasts term c1 c2 c3 store fmt).output = credsRequiredDbMsg
      ∨ (∃ e, (searchPodcasts term c1 c2 c3 store fmt).output = searchDbErrMsg e)
      ∨ (searchPodcasts term c1 c2 c3 store fmt).output = dbRetrieveErrMsg
      ∨ (searchPodcasts term c1 c2 c3 store fmt).output = searchNoMatchMsg term
      ∨ (∃ rows, (searchPodcasts term c1 c2 c3 store fmt).output
          = searchResultList fmt term rows)) := by
  refine ⟨?_, ?_, ?_, ?_, ?_, ?_⟩
  · intro limit rows fmt
    unfold getPreviousPodcasts
    rw [if_neg (by simp)]
    cases rows <;> rfl
  · intro limit success fmt
    unfold getPreviousPodcasts
    rw [if_neg (by simp)]
    cases success <;> rfl
  · intro term rows fmt
    unfold searchPodcasts
    rw [if_neg (by simp)]
    cases rows <;> rfl
  · intro term success fmt
    unfold searchPodcasts
    rw [if_neg (by simp)]
    cases success <;> rfl
  · intro limit c1 c2 c3 store fmt
    by_cases hc : (c1.isNone || c2.isNone || c3.isNone) = true
    · left
      unfold getPreviousPodcasts
      rw [if_pos hc]
    · unfold getPreviousPodcasts
      rw [if_neg hc]
      right
      cases store with
      | throws e => left; exact ⟨e, rfl⟩
      | parsed success rows =>
        right
        cases success with
        | false => left; cases rows <;> rfl
        | true =>
          cases rows with
          | none => left; rfl
          | some podcasts =>
            by_cases hp : podcasts.isEmpty = true
            · right; left
              show (if podcasts.isEmpty then noPodcastsYetMsg
                    else formatPodcastList fmt podcasts) = noPodcastsYetMsg
              rw [if_pos hp]
            · right; right
              refine ⟨podcasts, ?_⟩
              show (if podcasts.isEmpty then noPodcastsYetMsg
                    else formatPodcastList fmt podcasts) = formatPodcastList fmt podcasts
              rw [if_neg hp]
  · intro term c1 c2 c3 store fmt
    by_cases hc : (c1.isNone || c2.isNone || c3.isNone) = true
    · left
      unfold searchPodcasts
      rw [if_pos hc]
    · unfold searchPodcasts
      rw [if_neg hc]
      right
      cases store with
      | throws e => left; exact ⟨e, rfl⟩
      | parsed success rows =>
        right
        cases success with
        | false => left; cases rows <;> rfl
        | true =>
          cases rows with
          | none => left; rfl
          | some podcasts =>
            by_cases hp : podcasts.isEmpty = true
            · right; left
              show (if podcasts.isEmpty then searchNoMatchMsg term
                    else searchResultList fmt term podcasts) = searchNoMatchMsg term
              rw [if_pos hp]
            · right; right
              refine ⟨podcasts, ?_⟩
              show (if podcasts.isEmpty then searchNoMatchMsg term
                    else searchResultList fmt term podcasts)
                  = searchResultList fmt term podcasts
              rw [if_neg hp]

/-- C7 counterexample: with valid credentials, rows "ai" and "cooking"
fetched, and the inference call THROWING, `recommendPodcast` returns the
caught-error message, not the keyword-fallback match of the "ai" row,
refuting the claim that a failing inference call falls back to keyword
matching. -/
theorem recommend_ai_throw_cex :
    recommendPodcast ("something about ai".toList) (some ("acc".toList))
        (some ("db".toList)) (some ("tok".toList))
        (.parsed true (some
          [⟨("ai".toList), ("s1".toList), ("u1".toList), ("t1".toList)⟩,
           ⟨("cooking".toList), ("s2".toList), ("u2".toList), ("t2".toList)⟩]))
        (.throws ("boom".toList)) id
      = ⟨recErrMsg ("boom".toList), 1, 1⟩
    ∧ recErrMsg ("boom".toList)
        ≠ matchFoundMsg id ("something about ai".toList)
            ⟨("ai".toList), ("s1".toList), ("u1".toList), ("t1".toList)⟩ :=
  ⟨by decide, by decide⟩

/-- C7 (amended): with credentials present and a non-empty fetched row
list, when the inference response PARSES but lacks the expected shape
(success with `result.response`), `recommendPodcast` falls back to
splitting the lowercased preference on spaces and returning the first
row whose lowercased topic contains one of those words as a substring,
or the fixed no-match message; a THROWING inference call instead
produces the caught-error message (see the counterexample). -/
theorem recommend_fallback_amended
    (preference a b c : Str) (podcasts : List PodcastRow)
    (hrows : podcasts ≠ []) (aiSuccess : Bool) (resp : Option Str)
    (hbad : aiSuccess = false ∨ resp = none) (fmt : Str → Str) :
    recommendPodcast preference (some a) (some b) (some c)
        (.parsed true (some podcasts)) (.parsed aiSuccess resp) fmt
      = (match podcasts.filter (fun p =>
            (jsSplitChar ' ' (jsToLower preference)).any
              (fun k => strIncludes k (jsToLower p.topic))) with
         | [] => ⟨noMatchMsg preference, 1, 1⟩
         | m :: _ => ⟨matchFoundMsg fmt preference m, 1, 1⟩) := by
  unfold recommendPodcast
  rw [if_neg (by simp)]
  cases podcasts with
  | nil => exact absurd rfl hrows
  | cons p0 prest =>
    rcases hbad with h | h
    · subst h
      cases resp <;> rfl
    · subst h
      cases aiSuccess <;> rfl

theorem recommend_fallback_amended_witness :
    recommendPodcast ("something about ai".toList) (some ("acc".toList))
        (some ("db".toList)) (some ("tok".toList))
        (.parsed true (some
          [⟨("ai".toList), ("s1".toList), ("u1".toList), ("t1".toList)⟩,
           ⟨("cooking".toList), ("s2".toList), ("u2".toList), ("t2".toList)⟩]))
        (.parsed false none) id
      = ⟨matchFoundMsg id ("something about ai".toList)
          ⟨("ai".toList), ("s1".toList), ("u1".toList), ("t1".toList)⟩, 1, 1⟩ := by
  rw [recommend_fallback_amended ("something about ai".toList) ("acc".toList)
    ("db".toList) ("tok".toList)
    [⟨("ai".toList), ("s1".toList), ("u1".toList), ("t1".toList)⟩,
     ⟨("cooking".toList), ("s2".toList), ("u2".toList), ("t2".toList)⟩]
    (by decide) false none (Or.inl rfl) id]
  decide

/-- C8 counterexample: on the raw candidate "a_b" the code's cleaning
(whose character class is `[a-z0-9-]`) yields "ab" and uses it, while
steps five to seven of the deriveSlug algorithm (class `[\w\s-]`,
underscore collapsed to a hyphen) yield "a-b", a non-empty non-fallback
value, so the claimed sanitization does not describe the code. -/
theorem generateLLMSlug_steps567_cex :
    generateLLMSlug ("hello".toList) ("guide".toList) (.answers ("a_b".toList))
      = ("ab".toList)
    ∧ sanitizeSteps567 ("a_b".toList) = ("a-b".toList)
    ∧ sanitizeSteps567 ("a_b".toList) ≠ []
    ∧ sanitizeSteps567 ("a_b".toList) ≠ objectPromiseStr
    ∧ ("ab".toList) ≠ ("a-b".toList) := by decide

/-- C8 (amended): the collaborator's raw slug candidate is sanitized by
trimming, lowercasing, removing every character outside `[a-z0-9-]`,
collapsing runs of hyphens into a single hyphen and stripping leading
and trailing hyphens; if the cleaned result is empty or equals the
literal string "objectpromise", or the collaborator call throws, the
candidate is discarded and `createSlug` of the query is used instead. -/
theorem generateLLMSlug_sanitize_amended :
    (∀ q d raw : Str,
      generateLLMSlug q d (.answers raw)
        = if llmSanitizeSpecAmended raw ≠ []
              ∧ llmSanitizeSpecAmended raw ≠ objectPromiseStr
          then llmSanitizeSpecAmended raw else createSlug q d)
    ∧ (∀ q d e : Str, generateLLMSlug q d (.throws e) = createSlug q d) := by
  constructor
  · intro q d raw
    show (if 0 < (llmSlugClean raw).length ∧ llmSlugClean raw ≠ objectPromiseStr
          then llmSlugClean raw else createSlug q d) = _
    have hsame : llmSlugClean raw = llmSanitizeSpecAmended raw := rfl
    rw [hsame]
    exact if_congr (and_congr_left' List.length_pos) rfl rfl
  · intro q d e
    rfl

/-- C9: the persistence side-effect of `generatePodcast` is attempted
exactly when all three credentials are present (one attempt with all
three, zero attempts whenever any of the three is absent),
`savePodcastToD1` never surfaces a failure, and in every case and for
every store behaviour `generatePodcast` returns the text-completion
announcement unchanged and never an error. -/
theorem generatePodcast_persistence_isolation :
    (∀ (query : Str) (baseUrl : Option Str) (a b c d : Str) (llm : LlmResp)
        (announcement : Str) (store : ExecResp),
      generatePodcast query baseUrl (some a) (some b) (some c) d llm
          announcement store
        = .ok (announcement, 1))
    ∧ (∀ (query : Str) (baseUrl : Option Str)
        (cloudflareAccountId cloudflareDatabaseId cloudflareApiToken : Option Str)
        (d : Str) (llm : LlmResp) (announcement : Str) (store : ExecResp),
      cloudflareAccountId = none ∨ cloudflareDatabaseId = none
        ∨ cloudflareApiToken = none →
      generatePodcast query baseUrl cloudflareAccountId cloudflareDatabaseId
          cloudflareApiToken d llm announcement store
        = .ok (announcement, 0))
    ∧ (∀ (topic slug url : Str) (store : ExecResp),
      savePodcastToD1 topic slug url store = .ok ()) := by
  refine ⟨?_, ?_, ?_⟩
  · intro query baseUrl a b c d llm announcement store
    cases store <;> rfl
  · intro query baseUrl cloudflareAccountId cloudflareDatabaseId
      cloudflareApiToken d llm announcement store h
    have hc : (cloudflareAccountId.isSome && cloudflareDatabaseId.isSome
        && cloudflareApiToken.isSome) = false := by
      rcases h with h | h | h <;> simp [h]
    unfold generatePodcast
    rw [if_neg (by rw [hc]; exact Bool.false_ne_true)]
  · intro topic slug url store
    cases store <;> rfl

theorem generatePodcast_persistence_isolation_witness :
    generatePodcast ("q".toList) none (some ("a".toList)) (some ("b".toList))
        (some ("c".toList)) ("guide".toList) (.answers ("my-slug".toList))
        ("done".toList) (.throws ("boom".toList))
      = .ok (("done".toList), 1)
    ∧ generatePodcast ("q".toList) none none none none ("guide".toList)
        (.throws ("e".toList)) ("done".toList) (.throws ("boom".toList))
      = .ok (("done".toList), 0)
    ∧ savePodcastToD1 ("t".toList) ("s".toList) ("u".toList)
        (.throws ("boom".toList)) = .ok () :=
  ⟨generatePodcast_persistence_isolation.1 ("q".toList) none ("a".toList)
     ("b".toList) ("c".toList) ("guide".toList) (.answers ("my-slug".toList))
     ("done".toList) (.throws ("boom".toList)),
   generatePodcast_persistence_isolation.2.1 ("q".toList) none none none none
     ("guide".toList) (.throws ("e".toList)) ("done".toList)
     (.throws ("boom".toList)) (Or.inl rfl),
   generatePodcast_persistence_isolation.2.2 ("t".toList) ("s".toList)
     ("u".toList) (.throws ("boom".toList))⟩

lemma getPreviousPodcasts_issuedLimit (limit : Option Int) (a b c : Str)
    (store : StoreResp) (fmt : Str → Str) :
    (getPreviousPodcasts limit (some a) (some b) (some c) store fmt).issuedLimit
      = some (match limit with | none => 10 | some n => if n = 0 then 10 else n) := by
  unfold getPreviousPodcasts
  rw [if_neg (by simp)]
  cases h : getPreviousPodcastsBody store fmt <;> rfl

/-- C10: the effective row limit of `getPreviousPodcasts` is
`limit || 10`, so an absent limit and the falsy limit zero both issue
the SELECT with LIMIT 10, a non-zero limit is forwarded unchanged, and a
call requesting zero rows still returns the fetched rows. -/
theorem listLimit_falsy_defaults :
    (∀ (a b c : Str) (store : StoreResp) (fmt : Str → Str),
      (getPreviousPodcasts (some 0) (some a) (some b) (some c) store fmt).issuedLimit
        = some 10
      ∧ (getPreviousPodcasts none (some a) (some b) (some c) store fmt).issuedLimit
        = some 10)
    ∧ (∀ (n : Int), n ≠ 0 → ∀ (a b c : Str) (store : StoreResp) (fmt : Str → Str),
      (getPreviousPodcasts (some n) (some a) (some b) (some c) store fmt).issuedLimit
        = some n)
    ∧ (∀ (a b c : Str) (rows : List PodcastRow) (fmt : Str → Str), rows ≠ [] →
      (getPreviousPodcasts (some 0) (some a) (some b) (some c)
          (.parsed true (some rows)) fmt).output = formatPodcastList fmt rows) := by
  refine ⟨?_, ?_, ?_⟩
  · intro a b c store fmt
    constructor
    · rw [getPreviousPodcasts_issuedLimit]
      rfl
    · rw [getPreviousPodcasts_issuedLimit]
  · intro n hn a b c store fmt
    rw [getPreviousPodcasts_issuedLimit]
    show some (if n = 0 then 10 else n) = some n
    rw [if_neg hn]
  · intro a b c rows fmt hrows
    unfold getPreviousPodcasts
    rw [if_neg (by simp)]
    have hp : rows.isEmpty = false := by
      cases rows with
      | nil => exact absurd rfl hrows
      | cons x t => rfl
    show (if rows.isEmpty then noPodcastsYetMsg else formatPodcastList fmt rows)
        = formatPodcastList fmt rows
    rw [if_neg (by rw [hp]; exact Bool.false_ne_true)]

theorem listLimit_falsy_defaults_witness :
    (getPreviousPodcasts (some 0) (some ("a".toList)) (some ("b".toList))
        (some ("c".toList)) (.parsed true (some [])) id).issuedLimit = some 10
    ∧ (getPreviousPodcasts (some 5) (some ("a".toList)) (some ("b".toList))
        (some ("c".toList)) (.parsed true (some [])) id).issuedLimit = some 5
    ∧ (getPreviousPodcasts (some 0) (some ("a".toList)) (some ("b".toList))
        (some ("c".toList))
        (.parsed true (some
          [⟨("ai".toList), ("s".toList), ("u".toList), ("t".toList)⟩])) id).output
      = formatPodcastList id
          [⟨("ai".toList), ("s".toList), ("u".toList), ("t".toList)⟩] :=
  ⟨(listLimit_falsy_defaults.1 ("a".toList) ("b".toList) ("c".toList)
      (.parsed true (some [])) id).1,
   listLimit_falsy_defaults.2.1 5 (by decide) ("a".toList) ("b".toList)
     ("c".toList) (.parsed true (some [])) id,
   listLimit_falsy_defaults.2.2 ("a".toList) ("b".toList) ("c".toList)
     [⟨("ai".toList), ("s".toList), ("u".toList), ("t".toList)⟩] id (by decide)⟩
